import Mathlib

/-!
# Verification of the bookMarks bookmark-organizer core

Shallow embedding of the bookmark ingestion/normalization pipeline from
`src/js/api.js` and `src/js/utils.js`, together with proofs settling the
frozen claims about the specification.

JavaScript platform built-ins used by the source (`String.prototype.toLowerCase`,
`String.prototype.trim`, `String.prototype.includes`, the WHATWG `URL`
constructor, `Date.prototype.toISOString`, `JSON.stringify`/`JSON.parse`,
property access and truthiness) are modelled as explicit Lean functions; each
such model carries a doc comment naming the built-in it stands for.
-/

namespace JSString

/-- Models `String.prototype.toLowerCase` for one character (ASCII range;
the source only lower-cases ASCII keywords and titles in the claims). -/
def lowerChar (c : Char) : Char :=
  if 'A' ≤ c ∧ c ≤ 'Z' then Char.ofNat (c.toNat + 32) else c

/-- Models `String.prototype.toLowerCase` (ASCII case mapping). -/
def jsToLower (s : String) : String :=
  ⟨s.data.map lowerChar⟩

/-- Whitespace recognized by the model of `String.prototype.trim`
(space, tab, line feed, carriage return). -/
def isWs (c : Char) : Bool :=
  c = ' ' ∨ c = '\t' ∨ c = '\n' ∨ c = '\r'

/-- Models `String.prototype.trim`: strip whitespace from both ends. -/
def jsTrim (s : String) : String :=
  ⟨((s.data.dropWhile isWs).reverse.dropWhile isWs).reverse⟩

/-- Models `haystack.includes(needle)`: substring containment. -/
def jsIncludes (haystack needle : String) : Bool :=
  decide (List.IsInfix needle.data haystack.data)

end JSString

namespace JSDate

/-- Zero-padded decimal rendering used by the `toISOString` model. -/
def pad (width : Nat) (n : Nat) : String :=
  let s := toString n
  ⟨List.replicate (width - s.length) '0'⟩ ++ s

/-- Models `Date.prototype.toISOString` (the serialization `JSON.stringify`
applies to `Date` objects): epoch milliseconds to `YYYY-MM-DDTHH:mm:ss.sssZ`.
Civil-date decomposition follows the standard days-to-date algorithm; the
model renders years in the range 0..9999 (the only ones the claims touch). -/
def isoString (ms : Int) : String :=
  let days := Int.fdiv ms 86400000
  let msod := (Int.fmod ms 86400000).toNat
  let hh := msod / 3600000
  let mi := msod % 3600000 / 60000
  let ss := msod % 60000 / 1000
  let mmm := msod % 1000
  let z := days + 719468
  let era := Int.fdiv z 146097
  let doe := (Int.fmod z 146097).toNat
  let yoe := (doe - doe / 1460 + doe / 36524 - doe / 146096) / 365
  let doy := doe - (365 * yoe + yoe / 4 - yoe / 100)
  let mp := (5 * doy + 2) / 153
  let d := doy - (153 * mp + 2) / 5 + 1
  let m := if mp < 10 then mp + 3 else mp - 9
  let y : Int := era * 400 + yoe + (if m ≤ 2 then 1 else 0)
  pad 4 y.toNat ++ "-" ++ pad 2 m ++ "-" ++ pad 2 d ++ "T" ++
    pad 2 hh ++ ":" ++ pad 2 mi ++ ":" ++ pad 2 ss ++ "." ++ pad 3 mmm ++ "Z"

end JSDate

namespace URLModel

/-- Record of the `URL` components the source reads (only `hostname`). -/
structure URLRec where
  hostname : String
deriving DecidableEq

def isAlpha (c : Char) : Bool :=
  ('a' ≤ c ∧ c ≤ 'z') ∨ ('A' ≤ c ∧ c ≤ 'Z')

def isSchemeChar (c : Char) : Bool :=
  isAlpha c ∨ ('0' ≤ c ∧ c ≤ '9') ∨ c = '+' ∨ c = '-' ∨ c = '.'

/-- Characters stripped from the ends of URL input (C0 controls and space). -/
def isC0Space (c : Char) : Bool :=
  c.toNat ≤ 32

/-- Split a leading `scheme:` off the input, lower-casing the scheme;
fails when no valid scheme is present (which makes the `URL` constructor
throw, since the source never passes a base URL). -/
def splitScheme (cs : List Char) : Option (String × List Char) :=
  match cs with
  | [] => none
  | c :: _ =>
    if isAlpha c then
      match cs.dropWhile isSchemeChar with
      | ':' :: r => some (⟨(cs.takeWhile isSchemeChar).map JSString.lowerChar⟩, r)
      | _ => none
    else none

/-- Characters that terminate the authority component. -/
def isAuthorityChar (c : Char) : Bool :=
  c ≠ '/' ∧ c ≠ '\\' ∧ c ≠ '?' ∧ c ≠ '#'

/-- Extract the host from an authority: drop userinfo (text up to the last
`@`) and the port (text after the first `:`). IPv6 bracket syntax is not
modelled; the claims never use it. -/
def hostOfAuthority (auth : List Char) : List Char :=
  let afterAt :=
    if auth.contains '@' then (auth.reverse.takeWhile (· ≠ '@')).reverse else auth
  afterAt.takeWhile (· ≠ ':')

def specialSchemes : List String := ["http", "https", "ws", "wss", "ftp"]

/-- Models the WHATWG `URL` constructor to the extent the source observes it:
`some` a record carrying the hostname when parsing succeeds, `none` when the
constructor throws. Special schemes require a non-empty host; `file:` and
non-special schemes allow an empty one; a non-special URL without `//` is an
opaque path whose hostname is the empty string (e.g. `about:blank`). Host
syntax validation beyond this is not modelled. -/
def parse (input : String) : Option URLRec :=
  let cs := ((input.data.dropWhile isC0Space).reverse.dropWhile isC0Space).reverse
  match splitScheme cs with
  | none => none
  | some (scheme, rest) =>
    if scheme ∈ specialSchemes then
      let auth := (rest.dropWhile (fun c => c = '/' ∨ c = '\\')).takeWhile isAuthorityChar
      let host := hostOfAuthority auth
      if host.isEmpty then none else some ⟨⟨host.map JSString.lowerChar⟩⟩
    else
      match rest with
      | '/' :: '/' :: r =>
        some ⟨⟨(hostOfAuthority (r.takeWhile isAuthorityChar)).map JSString.lowerChar⟩⟩
      | _ => some ⟨""⟩

end URLModel

namespace Utils

namespace StringUtils

/-- `Utils.StringUtils.extractDomain` (`src/js/utils.js:146-153`):
`try { return new URL(url).hostname } catch (e) { return url }`. -/
def extractDomain (url : String) : String :=
  match URLModel.parse url with
  | some u => u.hostname
  | none => url

end StringUtils

namespace ArrayUtils

/-- The iteration of `[...new Set(arr)]`: `seen` holds the set contents so
far; an element already seen is skipped, a new one is emitted and added. -/
def uniqueGo (seen : List String) : List String → List String
  | [] => []
  | x :: xs => if x ∈ seen then uniqueGo seen xs else x :: uniqueGo (seen ++ [x]) xs

/-- `Utils.ArrayUtils.unique` on a plain string array
(`src/js/utils.js:190-206`, the `key = null` path): `[...new Set(arr)]`,
i.e. deduplication keeping the first occurrence of each element in
insertion order. -/
def unique (arr : List String) : List String :=
  uniqueGo [] arr

end ArrayUtils

end Utils

/-- JavaScript runtime exceptions surfaced by the embedded code
(reading a property of `null`/`undefined`, or calling a method that the
receiver does not have, are all `TypeError`s). -/
inductive JSErr where
  | typeError
deriving DecidableEq

namespace BookmarkAPI

open JSString Utils.StringUtils Utils.ArrayUtils

/-- `BookmarkAPI.generateDescription` (`src/js/api.js:422-425`). The `title`
parameter is unused by the source; it is kept for signature fidelity. -/
def generateDescription (_title : Option String) (url : String) : String :=
  "来自 " ++ extractDomain url ++ " 的书签"

/-- The tag labels pushed by `BookmarkAPI.generateTags`
(`src/js/api.js:433-453`) before deduplication, in rule-evaluation order:
eight domain-substring rules followed by four title-substring rules. -/
def rawTags (title : String) (url : String) : List String :=
  let domain := extractDomain url
  let titleLower := jsToLower title
  (if jsIncludes domain "github" then ["开发"] else []) ++
  (if jsIncludes domain "stackoverflow" then ["编程"] else []) ++
  (if jsIncludes domain "youtube" then ["视频"] else []) ++
  (if jsIncludes domain "bilibili" then ["视频"] else []) ++
  (if jsIncludes domain "zhihu" then ["问答"] else []) ++
  (if jsIncludes domain "baidu" || jsIncludes domain "google" then ["搜索"] else []) ++
  (if jsIncludes domain "taobao" || jsIncludes domain "jd" then ["购物"] else []) ++
  (if jsIncludes domain "weibo" || jsIncludes domain "twitter" then ["社交"] else []) ++
  (if jsIncludes titleLower "doc" || jsIncludes titleLower "文档" then ["文档"] else []) ++
  (if jsIncludes titleLower "tutorial" || jsIncludes titleLower "教程" then ["教程"] else []) ++
  (if jsIncludes titleLower "news" || jsIncludes titleLower "新闻" then ["新闻"] else []) ++
  (if jsIncludes titleLower "blog" || jsIncludes titleLower "博客" then ["博客"] else [])

/-- `BookmarkAPI.generateTags` (`src/js/api.js:433-455`): collects the rule
labels then deduplicates with `Utils.ArrayUtils.unique`. A `title` of
`none` models a JavaScript `undefined` title, on which
`title.toLowerCase()` throws a `TypeError`. -/
def generateTags (title : Option String) (url : String) : Except JSErr (List String) :=
  match title with
  | none => .error .typeError
  | some t => .ok (unique (rawTags t url))

/-- A bookmark record as constructed by `parseBookmarkTree`
(`src/js/api.js:388-397`). `dateAdded` holds the epoch milliseconds of the
`Date` object stored there. -/
structure Bookmark where
  id : String
  title : String
  url : String
  folder : String
  dateAdded : Int
  description : String
  tags : List String
  domain : String
deriving DecidableEq

/-- A folder record as constructed by `parseBookmarkTree`
(`src/js/api.js:372-378`). `parentPath` is `none` when the surrounding
`parentPath` variable held `undefined`. -/
structure Folder where
  id : String
  title : String
  path : String
  parentPath : Option String
  children : List Bookmark
deriving DecidableEq

/-- A node of the native bookmark tree consumed by `parseBookmarkTree`.
`hasChildren` models presence of the (always truthy) `children` array;
`title`, `url` and `dateAdded` model optional fields (`none` = absent /
`undefined`). -/
inductive BTNode where
  | mk (id : String) (title : Option String) (hasChildren : Bool)
      (children : List BTNode) (url : Option String) (dateAdded : Option Int)

def BTNode.id : BTNode → String
  | .mk i _ _ _ _ _ => i

def BTNode.title : BTNode → Option String
  | .mk _ t _ _ _ _ => t

def BTNode.hasChildren : BTNode → Bool
  | .mk _ _ h _ _ _ => h

def BTNode.children : BTNode → List BTNode
  | .mk _ _ _ c _ _ => c

def BTNode.url : BTNode → Option String
  | .mk _ _ _ _ u _ => u

def BTNode.dateAdded : BTNode → Option Int
  | .mk _ _ _ _ _ d => d

/-- JavaScript truthiness of a string-or-`undefined` value
(`undefined` and the empty string are falsy). -/
def truthyS : Option String → Bool
  | none => false
  | some s => !(s == "")

/-- JavaScript string coercion of a string-or-`undefined` value, as applied
by the template literal building folder paths. -/
def coerceS : Option String → String
  | none => "undefined"
  | some s => s

/-- JavaScript truthiness of a number-or-`undefined` value (`0` is falsy). -/
def truthyN : Option Int → Bool
  | none => false
  | some n => !(n == 0)

/-- The accumulation state of `parseBookmarkTree`'s traversal: the flat
`bookmarks` and `folders` arrays plus `folderMap`, an insertion-ordered map
from node id to the index of the (shared, mutable) folder object, here
represented by the folder's index in `folders`. -/
structure ParseState where
  bookmarks : List Bookmark
  folders : List Folder
  fmap : List (String × Nat)
deriving DecidableEq

/-- `folderMap.set(id, folder)`: replace in place when the key exists,
otherwise append (JavaScript `Map` insertion-order semantics). -/
def mapSet (m : List (String × Nat)) (k : String) (v : Nat) : List (String × Nat) :=
  if m.any (fun e => e.1 == k) then
    m.map (fun e => if e.1 == k then (k, v) else e)
  else
    m ++ [(k, v)]

/-- `Array.from(folderMap.values()).find(f => f.path === parentPath)`
(`src/js/api.js:402-403`): the first folder in map insertion order whose
`path` strictly equals `parentPath`; `undefined` (`none`) never equals a
string path. -/
def findParentIdx (folders : List Folder) (m : List (String × Nat))
    (parentPath : Option String) : Option Nat :=
  match parentPath with
  | none => none
  | some p =>
    (m.find? (fun e =>
      match folders.get? e.2 with
      | some f => f.path == p
      | none => false)).map (fun e => e.2)

/-- `parentFolder.children.push(bookmark)`: mutate the folder object at the
given index. -/
def attachChild (folders : List Folder) (i : Nat) (bm : Bookmark) : List Folder :=
  match folders.get? i with
  | some f => folders.set i { f with children := f.children ++ [bm] }
  | none => folders

end BookmarkAPI

namespace BookmarkAPI

open JSString Utils.StringUtils Utils.ArrayUtils

/-- Result shape returned by `parseBookmarkTree` (`src/js/api.js:413`). -/
structure ParseResult where
  bookmarks : List Bookmark
  folders : List Folder
deriving DecidableEq

/-- The folder path computed for a container node:
`parentPath ? `${parentPath}/${node.title}` : node.title`
(`src/js/api.js:369`). -/
def childPath (pp : Option String) (title : Option String) : Option String :=
  if truthyS pp then some (coerceS pp ++ "/" ++ coerceS title) else title

/-- The folder-record creation step (`src/js/api.js:371-382`): a Folder is
pushed (and registered in the map) only for a truthy title different from
the two pseudo-root names. -/
def folderStep (pp : Option String) (st : ParseState) (id : String)
    (title : Option String) : ParseState :=
  if truthyS title && !(title == some "书签栏") && !(title == some "其他书签") then
    { st with
        folders := st.folders ++
          [{ id := id, title := coerceS title, path := coerceS (childPath pp title),
             parentPath := pp, children := [] }],
        fmap := mapSet st.fmap id st.folders.length }
  else st

/-- `node.dateAdded ? new Date(node.dateAdded) : new Date()`
(`src/js/api.js:393`): a truthy (present and non-zero) epoch value is kept,
otherwise the current clock value is used. -/
def dateOf (now : Int) (dAdd : Option Int) : Int :=
  match dAdd with
  | some v => if v == 0 then now else v
  | none => now

/-- The bookmark record built for a leaf node (`src/js/api.js:388-397`),
given the already-computed tags. -/
def mkBookmark (now : Int) (pp : Option String) (id : String)
    (title : Option String) (url : Option String) (dAdd : Option Int)
    (tags : List String) : Bookmark :=
  { id := id,
    title := if truthyS title then coerceS title else "无标题",
    url := coerceS url,
    folder := if truthyS pp then coerceS pp else "根目录",
    dateAdded := dateOf now dAdd,
    description := generateDescription title (coerceS url),
    tags := tags,
    domain := extractDomain (coerceS url) }

/-- The bookmark branch of `traverse` (`src/js/api.js:386-407`): generate
the tags (this throws on an absent title), push the bookmark, and attach it
to the first folder in map order whose `path` equals `parentPath`. -/
def leafStep (now : Int) (pp : Option String) (st : ParseState) (id : String)
    (title : Option String) (url : Option String) (dAdd : Option Int) :
    Except JSErr ParseState :=
  match generateTags title (coerceS url) with
  | .error e => .error e
  | .ok tags =>
    let bm := mkBookmark now pp id title url dAdd tags
    let st1 := { st with bookmarks := st.bookmarks ++ [bm] }
    .ok (match findParentIdx st1.folders st1.fmap pp with
      | some i => { st1 with folders := attachChild st1.folders i bm }
      | none => st1)

mutual

/-- One step of the `traverse` closure inside `BookmarkAPI.parseBookmarkTree`
(`src/js/api.js:365-409`) on a single node. `now` is the clock value used by
`new Date()`. A truthy `children` field selects the folder branch: the folder
record is only created for a truthy title different from the two pseudo-root
names, but the children are always traversed with the computed path. A falsy
`children` plus truthy `url` selects the bookmark branch, which throws
(`TypeError`) when the title is absent because `generateTags` calls
`title.toLowerCase()` on it. -/
def traverseNode (now : Int) (pp : Option String) (st : ParseState)
    (node : BTNode) : Except JSErr ParseState :=
  match node with
  | .mk id title hasC cs url dAdd =>
    if hasC then
      traverseList now (childPath pp title) (folderStep pp st id title) cs
    else if truthyS url then
      leafStep now pp st id title url dAdd
    else
      .ok st

/-- `nodes.forEach(node => ...)` inside `traverse`: process the nodes in
order, aborting at the first thrown exception. -/
def traverseList (now : Int) (pp : Option String) (st : ParseState)
    (nodes : List BTNode) : Except JSErr ParseState :=
  match nodes with
  | [] => .ok st
  | n :: rest =>
    match traverseNode now pp st n with
    | .error e => .error e
    | .ok st' => traverseList now pp st' rest

end

/-- `BookmarkAPI.parseBookmarkTree` (`src/js/api.js:360-414`): traverse the
roots with the initial `parentPath = ''` and return the flat `bookmarks` and
`folders` arrays. -/
def parseBookmarkTree (now : Int) (nodes : List BTNode) : Except JSErr ParseResult :=
  match traverseList now (some "") ⟨[], [], []⟩ nodes with
  | .error e => .error e
  | .ok st => .ok ⟨st.bookmarks, st.folders⟩

end BookmarkAPI

namespace BookmarkAPI

open JSString

/-- The predicate `searchBookmarks` filters with (`src/js/api.js:576-582`),
for a well-typed bookmark: the search term is a substring of the lower-cased
title, url, description or folder, or of some lower-cased tag. -/
def matchesBookmark (term : String) (b : Bookmark) : Bool :=
  jsIncludes (jsToLower b.title) term ||
  jsIncludes (jsToLower b.url) term ||
  jsIncludes (jsToLower b.description) term ||
  jsIncludes (jsToLower b.folder) term ||
  b.tags.any (fun t => jsIncludes (jsToLower t) term)

/-- `BookmarkAPI.searchBookmarks` (`src/js/api.js:567-583`) on an explicitly
supplied collection: falsy or whitespace-only keyword returns the collection
itself, otherwise filter by `matchesBookmark` with the lower-cased, trimmed
keyword. -/
def searchBookmarks (keyword : String) (bookmarks : List Bookmark) : List Bookmark :=
  if keyword == "" || jsTrim keyword == "" then bookmarks
  else bookmarks.filter (matchesBookmark (jsTrim (jsToLower keyword)))

/-- `BookmarkAPI.filterByFolder` (`src/js/api.js:591-599`): falsy folder name
is the identity, otherwise keep bookmarks whose `folder` strictly equals it. -/
def filterByFolder (folderName : String) (bookmarks : List Bookmark) : List Bookmark :=
  if folderName == "" then bookmarks
  else bookmarks.filter (fun b => b.folder == folderName)

/-- `BookmarkAPI.filterByTag` (`src/js/api.js:607-617`): falsy tag is the
identity, otherwise keep bookmarks whose `tags` array contains it. -/
def filterByTag (tag : String) (bookmarks : List Bookmark) : List Bookmark :=
  if tag == "" then bookmarks
  else bookmarks.filter (fun b => b.tags.contains tag)

end BookmarkAPI

/-- A JavaScript value as observed by the import/export codec and the
search path: JSON primitives, `Date` objects, `undefined`, arrays and
(duplicate-key-free) objects with insertion-ordered fields. -/
inductive JSVal where
  | null
  | undefined
  | bool (b : Bool)
  | num (n : Int)
  | str (s : String)
  | date (ms : Int)
  | arr (elems : List JSVal)
  | obj (fields : List (String × JSVal))

namespace JSVal

/-- JavaScript truthiness (`NaN` is not modelled; `Date` objects, arrays and
objects are always truthy). -/
def truthy : JSVal → Bool
  | .null => false
  | .undefined => false
  | .bool b => b
  | .num n => !(n == 0)
  | .str s => !(s == "")
  | .date _ => true
  | .arr _ => true
  | .obj _ => true

/-- `Array.isArray`. -/
def isArray : JSVal → Bool
  | .arr _ => true
  | _ => false

/-- First field with the given key (JavaScript objects cannot hold duplicate
keys, so object values with distinct keys make this exact); missing keys read
as `undefined`. -/
def lookupField : List (String × JSVal) → String → JSVal
  | [], _ => .undefined
  | e :: rest, k => if e.1 == k then e.2 else lookupField rest k

/-- Property access `v[k]`: throws `TypeError` on `null`/`undefined`,
reads object fields, and yields `undefined` on every other receiver
(primitives and arrays have none of the properties the source reads). -/
def jsGet (v : JSVal) (k : String) : Except JSErr JSVal :=
  match v with
  | .null => .error .typeError
  | .undefined => .error .typeError
  | .obj fields => .ok (lookupField fields k)
  | _ => .ok .undefined

/-- Property access where the receiver is known not to be
`null`/`undefined` (so no throw is possible). -/
def jsGetD (v : JSVal) (k : String) : JSVal :=
  match jsGet v k with
  | .ok w => w
  | .error _ => .undefined

end JSVal

mutual

/-- Models `JSON.parse(JSON.stringify(v))` as one value-level normalization:
JSON primitives survive unchanged, `Date` objects serialize to their ISO
string (via `toJSON`), `undefined` array elements become `null`, and
object fields holding `undefined` are dropped. -/
def stringifyParse : JSVal → JSVal
  | .null => .null
  | .undefined => .null
  | .bool b => .bool b
  | .num n => .num n
  | .str s => .str s
  | .date ms => .str (JSDate.isoString ms)
  | .arr xs => .arr (stringifyParseList xs)
  | .obj fs => .obj (stringifyParseFields fs)

def stringifyParseList : List JSVal → List JSVal
  | [] => []
  | v :: vs => stringifyParse v :: stringifyParseList vs

def stringifyParseFields : List (String × JSVal) → List (String × JSVal)
  | [] => []
  | (_, .undefined) :: fs => stringifyParseFields fs
  | (k, v) :: fs => (k, stringifyParse v) :: stringifyParseFields fs

end

mutual

/-- A value is JSON-pure when it contains no `Date` object and no
`undefined`, so that `JSON.parse(JSON.stringify(·))` is the identity on it. -/
def jsonPure : JSVal → Bool
  | .null => true
  | .undefined => false
  | .bool _ => true
  | .num _ => true
  | .str _ => true
  | .date _ => false
  | .arr xs => jsonPureList xs
  | .obj fs => jsonPureFields fs

def jsonPureList : List JSVal → Bool
  | [] => true
  | v :: vs => jsonPure v && jsonPureList vs

def jsonPureFields : List (String × JSVal) → Bool
  | [] => true
  | (_, v) :: fs => jsonPure v && jsonPureFields fs

end

namespace BookmarkAPI

open JSString

/-- The JavaScript object a parsed `Bookmark` record is, with fields in
construction order (`src/js/api.js:388-397`). -/
def Bookmark.toJS (b : Bookmark) : JSVal :=
  .obj [("id", .str b.id), ("title", .str b.title), ("url", .str b.url),
        ("folder", .str b.folder), ("dateAdded", .date b.dateAdded),
        ("description", .str b.description),
        ("tags", .arr (b.tags.map JSVal.str)), ("domain", .str b.domain)]

/-- The JavaScript object a parsed `Folder` record is, with fields in
construction order (`src/js/api.js:372-378`). -/
def Folder.toJS (f : Folder) : JSVal :=
  .obj [("id", .str f.id), ("title", .str f.title), ("path", .str f.path),
        ("parentPath", match f.parentPath with
          | some p => .str p
          | none => .undefined),
        ("children", .arr (f.children.map Bookmark.toJS))]

/-- The mutable model held by a `BookmarkAPI` instance: `this.bookmarks`
(always an array) and `this.folders` (whatever value an import assigned). -/
structure APIState where
  bookmarks : List JSVal
  folders : JSVal

/-- Outcome shape of `importBookmarks`: the `success` flag and the error
message of the `{success:false, error}` branch. -/
structure ImportResult where
  success : Bool
  error : Option String
deriving DecidableEq

/-- `BookmarkAPI.exportBookmarks` (`src/js/api.js:623-633`) up to JSON text
rendering: the envelope object serialized at clock value `now`. -/
def exportBookmarks (now : Int) (st : APIState) : JSVal :=
  .obj [("version", .str "1.0"),
        ("exportDate", .str (JSDate.isoString now)),
        ("bookmarks", .arr st.bookmarks),
        ("folders", st.folders),
        ("total", .num st.bookmarks.length)]

/-- `BookmarkAPI.importBookmarks` (`src/js/api.js:640-666`). The argument is
the outcome of `JSON.parse` on the input text (`Except.error` = the parse
threw). A missing, falsy or non-array `bookmarks` value throws
`无效的书签数据格式`, which the surrounding catch converts into a failure
result, leaving the held state untouched; otherwise the state is replaced
wholesale, with `folders` defaulting to `[]` when falsy. -/
def importBookmarks (parsed : Except String JSVal) (st : APIState) :
    ImportResult × APIState :=
  match parsed with
  | .error msg => (⟨false, some msg⟩, st)
  | .ok data =>
    match JSVal.jsGet data "bookmarks" with
    | .error _ => (⟨false, some "TypeError"⟩, st)
    | .ok (.arr elems) =>
      let fv := JSVal.jsGetD data "folders"
      (⟨true, none⟩, ⟨elems, if fv.truthy then fv else .arr []⟩)
    | .ok _ => (⟨false, some "无效的书签数据格式"⟩, st)

/-- `bookmark[k].toLowerCase().includes(term)` over an untyped bookmark:
throws when the bookmark is `null`/`undefined` or the field value is not a
string. -/
def fieldIncludes (b : JSVal) (k : String) (term : String) : Except JSErr Bool :=
  match JSVal.jsGet b k with
  | .error e => .error e
  | .ok (.str s) => .ok (jsIncludes (jsToLower s) term)
  | .ok _ => .error .typeError

/-- `tags.some(tag => tag.toLowerCase().includes(term))`: evaluate elements
in order, stopping at the first match; a non-string element reached before a
match throws. -/
def tagsSome (term : String) : List JSVal → Except JSErr Bool
  | [] => .ok false
  | .str s :: ts =>
    if jsIncludes (jsToLower s) term then .ok true else tagsSome term ts
  | _ :: _ => .error .typeError

/-- The filter predicate of `searchBookmarks` (`src/js/api.js:576-582`)
evaluated on an untyped bookmark, with JavaScript short-circuit `||`. -/
def matchesBookmarkJS (term : String) (b : JSVal) : Except JSErr Bool :=
  match fieldIncludes b "title" term with
  | .error e => .error e
  | .ok true => .ok true
  | .ok false =>
    match fieldIncludes b "url" term with
    | .error e => .error e
    | .ok true => .ok true
    | .ok false =>
      match fieldIncludes b "description" term with
      | .error e => .error e
      | .ok true => .ok true
      | .ok false =>
        match fieldIncludes b "folder" term with
        | .error e => .error e
        | .ok true => .ok true
        | .ok false =>
          match JSVal.jsGet b "tags" with
          | .error e => .error e
          | .ok (.arr ts) => tagsSome term ts
          | .ok _ => .error .typeError

/-- `targetBookmarks.filter(...)` with a throwing callback: the first
exception aborts the whole call. -/
def filterJS (term : String) : List JSVal → Except JSErr (List JSVal)
  | [] => .ok []
  | b :: bs =>
    match matchesBookmarkJS term b with
    | .error e => .error e
    | .ok keep =>
      match filterJS term bs with
      | .error e => .error e
      | .ok rest => .ok (if keep then b :: rest else rest)

/-- `BookmarkAPI.searchBookmarks` (`src/js/api.js:567-583`) on an untyped
collection, as reached after an unnormalized import. -/
def searchBookmarksJS (keyword : String) (bookmarks : List JSVal) :
    Except JSErr (List JSVal) :=
  if keyword == "" || jsTrim keyword == "" then .ok bookmarks
  else filterJS (jsTrim (jsToLower keyword)) bookmarks

end BookmarkAPI

namespace JSVal

/-- Read an optional string field off a decoded JSON object: non-string
values (including `undefined`) are treated as absent. -/
def strOpt : JSVal → Option String
  | .str s => some s
  | _ => none

/-- Read a string field that the source uses as an opaque identifier;
non-string values decode to the empty string. -/
def strOrEmpty : JSVal → String
  | .str s => s
  | _ => ""

/-- Read an optional numeric field. -/
def numOpt : JSVal → Option Int
  | .num n => some n
  | _ => none

end JSVal

namespace BookmarkAPI

/-- The value read off a field list is no larger than the field list
itself (used for termination of the JSON-to-node decoder). -/
theorem sizeOf_lookupField_le (fs : List (String × JSVal)) (k : String) :
    sizeOf (JSVal.lookupField fs k) ≤ sizeOf fs := by
  induction fs with
  | nil => simp [JSVal.lookupField]
  | cons e rest ih =>
    cases e with
    | mk k' v =>
      simp only [JSVal.lookupField]
      split
      · simp only [List.cons.sizeOf_spec, Prod.mk.sizeOf_spec]
        omega
      · simp only [List.cons.sizeOf_spec]
        omega

mutual

/-- Decoder from a parsed JSON value to a `BTNode`, used by the
`data.roots` branch of `parseJSONBookmarks`. It models the field reads
`parseBookmarkTree` performs on raw JSON nodes: `null`/`undefined` nodes
throw (the traversal reads `.children` on them), an array-valued `children`
marks a container, any other truthy `children` value would make the
source's `forEach` throw, and non-string `title`/`url` decode as absent. -/
def decodeBTNode (v : JSVal) : Except JSErr BTNode :=
  match v with
  | .null => .error .typeError
  | .undefined => .error .typeError
  | .obj fs =>
    match _hc : JSVal.lookupField fs "children" with
    | .arr cs =>
      match decodeBTNodeList cs with
      | .error e => .error e
      | .ok cs' =>
        .ok (.mk (JSVal.strOrEmpty (JSVal.lookupField fs "id"))
          (JSVal.strOpt (JSVal.lookupField fs "title")) true cs'
          (JSVal.strOpt (JSVal.lookupField fs "url"))
          (JSVal.numOpt (JSVal.lookupField fs "dateAdded")))
    | w =>
      if w.truthy then .error .typeError
      else
        .ok (.mk (JSVal.strOrEmpty (JSVal.lookupField fs "id"))
          (JSVal.strOpt (JSVal.lookupField fs "title")) false []
          (JSVal.strOpt (JSVal.lookupField fs "url"))
          (JSVal.numOpt (JSVal.lookupField fs "dateAdded")))
  | _ => .ok (.mk "" none false [] none none)
termination_by sizeOf v
decreasing_by
  have h1 := sizeOf_lookupField_le fields "children"
  rw [_hc] at h1
  simp only [JSVal.arr.sizeOf_spec] at h1
  simp only [JSVal.obj.sizeOf_spec]
  omega

def decodeBTNodeList (vs : List JSVal) : Except JSErr (List BTNode) :=
  match vs with
  | [] => .ok []
  | v :: rest =>
    match decodeBTNode v with
    | .error e => .error e
    | .ok n =>
      match decodeBTNodeList rest with
      | .error e => .error e
      | .ok ns => .ok (n :: ns)
termination_by sizeOf vs
decreasing_by
  · simp only [List.cons.sizeOf_spec]; omega
  · simp only [List.cons.sizeOf_spec]; omega

end

/-- Result of `parseJSONBookmarks`: the `{bookmarks, folders}` record handed
to the caller (untyped, since the own-format branch passes the parsed JSON
values through unchanged). -/
structure JSONParseResult where
  bookmarks : List JSVal
  folders : JSVal

/-- `BookmarkAPI.parseJSONBookmarks` (`src/js/api.js:332-353`). The argument
is the outcome of `JSON.parse` on the file text. A present array-valued
`bookmarks` key passes the data through as already canonical (no
normalization); otherwise a truthy `roots` key delegates to
`parseBookmarkTree` over the three known root containers; otherwise the
function throws `无法识别的JSON书签格式`. Every throw is rewrapped as
`解析JSON文件失败: <message>`. -/
def parseJSONBookmarks (now : Int) (parsed : Except String JSVal) :
    Except String JSONParseResult :=
  match parsed with
  | .error msg => .error ("解析JSON文件失败: " ++ msg)
  | .ok data =>
    match JSVal.jsGet data "bookmarks" with
    | .error _ => .error "解析JSON文件失败: TypeError"
    | .ok (.arr elems) =>
      let fv := JSVal.jsGetD data "folders"
      .ok ⟨elems, if fv.truthy then fv else .arr []⟩
    | .ok _ =>
      match JSVal.jsGet data "roots" with
      | .error _ => .error "解析JSON文件失败: TypeError"
      | .ok r =>
        if r.truthy then
          match decodeBTNodeList
              [JSVal.jsGetD r "bookmark_bar", JSVal.jsGetD r "other",
               JSVal.jsGetD r "synced"] with
          | .error _ => .error "解析JSON文件失败: TypeError"
          | .ok ns =>
            match parseBookmarkTree now ns with
            | .error _ => .error "解析JSON文件失败: TypeError"
            | .ok res =>
              .ok ⟨res.bookmarks.map Bookmark.toJS,
                   .arr (res.folders.map Folder.toJS)⟩
        else .error "解析JSON文件失败: 无法识别的JSON书签格式"

end BookmarkAPI

namespace Utils.ArrayUtils

/-- Membership in the `Set` iteration: an element is emitted iff it occurs
in the remaining input and is not already in the set. -/
theorem mem_uniqueGo : ∀ (l : List String) (seen : List String) (x : String),
    x ∈ uniqueGo seen l ↔ x ∈ l ∧ x ∉ seen := by
  intro l
  induction l with
  | nil => simp [uniqueGo]
  | cons a as ih =>
    intro seen x
    by_cases ha : a ∈ seen
    · rw [uniqueGo, if_pos ha, ih]
      by_cases hxa : x = a
      · subst hxa; simp [ha]
      · simp [hxa]
    · rw [uniqueGo, if_neg ha]
      simp only [List.mem_cons, ih, List.mem_append, List.mem_singleton]
      by_cases hxa : x = a
      · subst hxa; simp [ha]
      · simp [hxa]

/-- The `Set` iteration emits no duplicates. -/
theorem nodup_uniqueGo : ∀ (l : List String) (seen : List String),
    (uniqueGo seen l).Nodup := by
  intro l
  induction l with
  | nil => intro seen; simp [uniqueGo]
  | cons a as ih =>
    intro seen
    by_cases ha : a ∈ seen
    · rw [uniqueGo, if_pos ha]; exact ih seen
    · rw [uniqueGo, if_neg ha, List.nodup_cons]
      refine ⟨fun hmem => ?_, ih (seen ++ [a])⟩
      rw [mem_uniqueGo] at hmem
      exact hmem.2 (by simp)

/-- The `Set` iteration preserves the order of first occurrences. -/
theorem uniqueGo_pairwise : ∀ (l : List String) (seen : List String),
    (uniqueGo seen l).Pairwise (fun a b => l.indexOf a < l.indexOf b) := by
  intro l
  induction l with
  | nil => intro seen; simp [uniqueGo]
  | cons a as ih =>
    intro seen
    by_cases ha : a ∈ seen
    · rw [uniqueGo, if_pos ha]
      refine List.Pairwise.imp_of_mem ?_ (ih seen)
      intro x y hx hy hlt
      have hxs : x ∉ seen := ((mem_uniqueGo as seen x).mp hx).2
      have hys : y ∉ seen := ((mem_uniqueGo as seen y).mp hy).2
      have hxa : x ≠ a := fun h => hxs (h ▸ ha)
      have hya : y ≠ a := fun h => hys (h ▸ ha)
      rw [List.indexOf_cons_ne _ (Ne.symm hxa), List.indexOf_cons_ne _ (Ne.symm hya)]
      omega
    · rw [uniqueGo, if_neg ha, List.pairwise_cons]
      constructor
      · intro b hb
        have hbs : b ∉ seen ++ [a] := ((mem_uniqueGo as (seen ++ [a]) b).mp hb).2
        have hba : b ≠ a := fun h => hbs (by simp [h])
        rw [List.indexOf_cons_self, List.indexOf_cons_ne _ (Ne.symm hba)]
        exact Nat.succ_pos _
      · refine List.Pairwise.imp_of_mem ?_ (ih (seen ++ [a]))
        intro x y hx hy hlt
        have hxs : x ∉ seen ++ [a] := ((mem_uniqueGo as (seen ++ [a]) x).mp hx).2
        have hys : y ∉ seen ++ [a] := ((mem_uniqueGo as (seen ++ [a]) y).mp hy).2
        have hxa : x ≠ a := fun h => hxs (by simp [h])
        have hya : y ≠ a := fun h => hys (by simp [h])
        rw [List.indexOf_cons_ne _ (Ne.symm hxa), List.indexOf_cons_ne _ (Ne.symm hya)]
        omega

/-- `unique` does not change membership. -/
theorem mem_unique (arr : List String) (x : String) : x ∈ unique arr ↔ x ∈ arr := by
  rw [unique, mem_uniqueGo]
  simp

/-- `unique` output has no duplicates. -/
theorem nodup_unique (arr : List String) : (unique arr).Nodup :=
  nodup_uniqueGo arr []

/-- The elements of `unique arr` appear in the order of their first
occurrences in `arr`: first-match-wins ordering. -/
theorem unique_pairwise_indexOf (arr : List String) :
    (unique arr).Pairwise (fun a b => arr.indexOf a < arr.indexOf b) :=
  uniqueGo_pairwise arr []

end Utils.ArrayUtils

mutual

/-- `JSON.parse(JSON.stringify(·))` is the identity on JSON-pure values. -/
theorem stringifyParse_pure : ∀ (v : JSVal), jsonPure v = true → stringifyParse v = v
  | .null, _ => rfl
  | .undefined, h => by simp [jsonPure] at h
  | .bool _, _ => rfl
  | .num _, _ => rfl
  | .str _, _ => rfl
  | .date _, h => by simp [jsonPure] at h
  | .arr xs, h => by
    rw [stringifyParse, stringifyParseList_pure xs (by simpa [jsonPure] using h)]
  | .obj fs, h => by
    rw [stringifyParse, stringifyParseFields_pure fs (by simpa [jsonPure] using h)]

theorem stringifyParseList_pure :
    ∀ (vs : List JSVal), jsonPureList vs = true → stringifyParseList vs = vs
  | [], _ => rfl
  | v :: vs, h => by
    rw [jsonPureList, Bool.and_eq_true] at h
    rw [stringifyParseList, stringifyParse_pure v h.1, stringifyParseList_pure vs h.2]

theorem stringifyParseFields_pure :
    ∀ (fs : List (String × JSVal)), jsonPureFields fs = true → stringifyParseFields fs = fs
  | [], _ => rfl
  | (k, v) :: fs, h => by
    rw [jsonPureFields, Bool.and_eq_true] at h
    have hv := h.1
    cases v
    case undefined => simp [jsonPure] at hv
    case date ms => simp [jsonPure] at hv
    all_goals
      simp only [stringifyParseFields]
      rw [stringifyParse_pure _ hv, stringifyParseFields_pure fs h.2]

end

/-- C6: for every string input, domain extraction is total (the embedding is
a total function mirroring the source's catch-all) and returns the URL
hostname when the input parses as a URL, and the original string unmodified
when URL parsing fails; in particular `"not a url"` fails to parse and comes
back unchanged, while a well-formed URL yields its hostname. -/
theorem c6_extractDomain_safe :
    (∀ s : String, Utils.StringUtils.extractDomain s =
      match URLModel.parse s with
      | some u => u.hostname
      | none => s) ∧
    URLModel.parse "not a url" = none ∧
    Utils.StringUtils.extractDomain "not a url" = "not a url" ∧
    URLModel.parse "https://github.com/x" = some ⟨"github.com"⟩ ∧
    Utils.StringUtils.extractDomain "https://github.com/x" = "github.com" :=
  ⟨fun _ => rfl, rfl, rfl, rfl, rfl⟩

/-- C4: importing JSON text whose `bookmarks` key is present but not an
array returns a failure result carrying the invalid-format error message
`无效的书签数据格式`, and leaves the previously-held bookmarks and folders
unchanged (atomicity on error). -/
theorem c4_import_invalid_format_atomic :
    ∀ (data : JSVal) (st : BookmarkAPI.APIState) (v : JSVal),
      JSVal.jsGet data "bookmarks" = .ok v →
      v.isArray = false →
      BookmarkAPI.importBookmarks (.ok data) st =
        (⟨false, some "无效的书签数据格式"⟩, st) := by
  intro data st v hget harr
  simp only [BookmarkAPI.importBookmarks, hget]
  cases v
  case arr elems => simp [JSVal.isArray] at harr
  all_goals rfl

/-- Witness for C4 at the spec's concrete input `{"bookmarks": "not-an-array"}`
against a non-empty prior model. -/
theorem c4_import_invalid_format_atomic_witness :
    JSVal.jsGet (.obj [("bookmarks", .str "not-an-array")]) "bookmarks" =
      .ok (.str "not-an-array") ∧
    (JSVal.str "not-an-array").isArray = false ∧
    BookmarkAPI.importBookmarks (.ok (.obj [("bookmarks", .str "not-an-array")]))
        ⟨[.str "prior"], .arr [.str "priorF"]⟩ =
      (⟨false, some "无效的书签数据格式"⟩, ⟨[.str "prior"], .arr [.str "priorF"]⟩) :=
  ⟨rfl, rfl,
    c4_import_invalid_format_atomic (.obj [("bookmarks", .str "not-an-array")])
      ⟨[.str "prior"], .arr [.str "priorF"]⟩ (.str "not-an-array") rfl rfl⟩

/-- C5: search with an empty or whitespace-only keyword returns the
collection itself; otherwise the result is a sublist (hence subset) of the
collection containing exactly the bookmarks for which the lower-cased,
trimmed keyword is a substring of the lower-cased title, url, description,
folder, or at least one tag (case-insensitive containment). -/
theorem c5_search_identity_and_subset :
    ∀ (kw : String) (c : List BookmarkAPI.Bookmark),
      (JSString.jsTrim kw = "" → BookmarkAPI.searchBookmarks kw c = c) ∧
      (JSString.jsTrim kw ≠ "" →
        (BookmarkAPI.searchBookmarks kw c).Sublist c ∧
        ∀ b, b ∈ BookmarkAPI.searchBookmarks kw c ↔
          b ∈ c ∧ BookmarkAPI.matchesBookmark
            (JSString.jsTrim (JSString.jsToLower kw)) b = true) := by
  intro kw c
  constructor
  · intro h
    have h1 : (JSString.jsTrim kw == "") = true := by simpa using h
    simp [BookmarkAPI.searchBookmarks, h1]
  · intro h
    have h1 : (JSString.jsTrim kw == "") = false := by simpa using h
    have h2 : (kw == "") = false := by
      cases hk : kw == ""
      · rfl
      · exfalso
        have hk' : kw = "" := by simpa using hk
        subst hk'
        exact h rfl
    simp only [BookmarkAPI.searchBookmarks, h1, h2, Bool.or_self, Bool.false_eq_true,
      if_false]
    exact ⟨List.filter_sublist _, fun b => by simp [List.mem_filter]⟩

/-- Witness for C5: the identity branch at a whitespace keyword and the
subset branch at a non-trivial keyword, on a one-bookmark collection. -/
theorem c5_search_identity_and_subset_witness :
    (JSString.jsTrim " " = "" ∧
      BookmarkAPI.searchBookmarks " "
        [⟨"1", "GitHub", "https://github.com", "dev", 0, "d", ["开发"], "github.com"⟩] =
      [⟨"1", "GitHub", "https://github.com", "dev", 0, "d", ["开发"], "github.com"⟩]) ∧
    (JSString.jsTrim "HUB" ≠ "" ∧
      (BookmarkAPI.searchBookmarks "HUB"
        [⟨"1", "GitHub", "https://github.com", "dev", 0, "d", ["开发"], "github.com"⟩]).Sublist
        [⟨"1", "GitHub", "https://github.com", "dev", 0, "d", ["开发"], "github.com"⟩]) :=
  ⟨⟨rfl, (c5_search_identity_and_subset " " _).1 rfl⟩,
   ⟨by decide, ((c5_search_identity_and_subset "HUB" _).2 (by decide)).1⟩⟩

/-- An identity-or-filter step commutes with another identity-or-filter
step (the shape of all three query functions). -/
theorem ite_filter_comm {α : Type} (b1 b2 : Bool) (p q : α → Bool) (c : List α) :
    (if b1 then (if b2 then c else c.filter q)
     else (if b2 then c else c.filter q).filter p) =
    (if b2 then (if b1 then c else c.filter p)
     else (if b1 then c else c.filter p).filter q) := by
  cases b1 <;> cases b2 <;> simp [List.filter_filter, Bool.and_comm]

/-- An identity-or-filter step yields a sublist of its input. -/
theorem ite_filter_sublist {α : Type} (b : Bool) (p : α → Bool) (c : List α) :
    (if b then c else c.filter p).Sublist c := by
  cases b <;> simp [List.filter_sublist]

/-- C8: `searchBookmarks`, `filterByFolder` and `filterByTag` are pure
subset filters (each result is a sublist of the input collection), and any
two of them commute over every collection, keyword, folder name and tag —
so chaining them in any order yields the same final list. -/
theorem c8_query_filters_commute :
    ∀ (kw folderName tag : String) (c : List BookmarkAPI.Bookmark),
      BookmarkAPI.searchBookmarks kw (BookmarkAPI.filterByFolder folderName c) =
        BookmarkAPI.filterByFolder folderName (BookmarkAPI.searchBookmarks kw c) ∧
      BookmarkAPI.searchBookmarks kw (BookmarkAPI.filterByTag tag c) =
        BookmarkAPI.filterByTag tag (BookmarkAPI.searchBookmarks kw c) ∧
      BookmarkAPI.filterByFolder folderName (BookmarkAPI.filterByTag tag c) =
        BookmarkAPI.filterByTag tag (BookmarkAPI.filterByFolder folderName c) ∧
      (BookmarkAPI.searchBookmarks kw c).Sublist c ∧
      (BookmarkAPI.filterByFolder folderName c).Sublist c ∧
      (BookmarkAPI.filterByTag tag c).Sublist c := by
  intro kw folderName tag c
  refine ⟨?_, ?_, ?_, ?_, ?_, ?_⟩
  · simp only [BookmarkAPI.searchBookmarks, BookmarkAPI.filterByFolder]
    exact ite_filter_comm _ _ _ _ c
  · simp only [BookmarkAPI.searchBookmarks, BookmarkAPI.filterByTag]
    exact ite_filter_comm _ _ _ _ c
  · simp only [BookmarkAPI.filterByFolder, BookmarkAPI.filterByTag]
    exact ite_filter_comm _ _ _ _ c
  · simp only [BookmarkAPI.searchBookmarks]
    exact ite_filter_sublist _ _ c
  · simp only [BookmarkAPI.filterByFolder]
    exact ite_filter_sublist _ _ c
  · simp only [BookmarkAPI.filterByTag]
    exact ite_filter_sublist _ _ c


/-- Setting a list entry to its current value changes nothing. -/
theorem set_get_self {α : Type} : ∀ (l : List α) (i : Nat) (a : α),
    l.get? i = some a → l.set i a = l := by
  intro l
  induction l with
  | nil => intro i a h; simp [List.get?] at h
  | cons x xs ih =>
    intro i a h
    cases i with
    | zero =>
      simp only [List.get?] at h
      rw [Option.some.injEq] at h
      subst h
      rfl
    | succ j =>
      simp only [List.get?] at h
      simp only [List.set]
      rw [ih j a h]

namespace BookmarkAPI

open JSString Utils.StringUtils Utils.ArrayUtils

/-- Attaching a bookmark to a folder's `children` changes no folder `path`. -/
theorem attachChild_map_path (folders : List Folder) (i : Nat) (bm : Bookmark) :
    (attachChild folders i bm).map (fun f => f.path) =
      folders.map (fun f => f.path) := by
  unfold attachChild
  cases hg : folders.get? i with
  | none => rfl
  | some f =>
    rw [List.map_set]
    exact set_get_self _ i _ (by rw [List.get?_map, hg]; rfl)

/-- `folderStep` never touches the bookmarks array. -/
theorem folderStep_bookmarks (pp : Option String) (st : ParseState) (id : String)
    (title : Option String) : (folderStep pp st id title).bookmarks = st.bookmarks := by
  unfold folderStep
  split <;> rfl

/-- What a successful `leafStep` does: the title was present, the new
bookmark (with deduplicated generated tags) is appended, and the folder
paths and the folder map are untouched. -/
theorem leafStep_spec (now : Int) (pp : Option String) (st : ParseState)
    (id : String) (title : Option String) (url : Option String)
    (dAdd : Option Int) (st' : ParseState)
    (h : leafStep now pp st id title url dAdd = .ok st') :
    ∃ t, title = some t ∧
      st'.bookmarks = st.bookmarks ++
        [mkBookmark now pp id title url dAdd (unique (rawTags t (coerceS url)))] ∧
      st'.folders.map (fun f => f.path) = st.folders.map (fun f => f.path) ∧
      st'.fmap = st.fmap := by
  cases title with
  | none => simp [leafStep, generateTags] at h
  | some t =>
    simp only [leafStep, generateTags] at h
    rw [Except.ok.injEq] at h
    subst h
    refine ⟨t, rfl, ?_⟩
    cases hf : findParentIdx
        ({ st with bookmarks := st.bookmarks ++
          [mkBookmark now pp id (some t) url dAdd (unique (rawTags t (coerceS url)))] }).folders
        ({ st with bookmarks := st.bookmarks ++
          [mkBookmark now pp id (some t) url dAdd (unique (rawTags t (coerceS url)))] }).fmap
        pp with
    | none => simp [hf]
    | some i => simp [hf, attachChild_map_path]

/-- Facts holding of every bookmark record the native-tree parser
constructs: its tags are the deduplicated rule tags for some title, its
domain is the safe-extracted domain of its url, and its url is non-empty
(the leaf guard requires a truthy `url`). -/
def bmWellFormed (bm : Bookmark) : Prop :=
  (∃ t, bm.tags = unique (rawTags t bm.url)) ∧
  bm.domain = extractDomain bm.url ∧
  bm.url ≠ ""

/-- A bookmark built by `mkBookmark` from a truthy url and deduplicated
tags is well-formed. -/
theorem mkBookmark_wellFormed (now : Int) (pp : Option String) (id : String)
    (title : Option String) (url : Option String) (dAdd : Option Int)
    (t : String) (hu : truthyS url = true) :
    bmWellFormed (mkBookmark now pp id title url dAdd
      (unique (rawTags t (coerceS url)))) := by
  refine ⟨⟨t, ?_⟩, ?_, ?_⟩
  · simp only [mkBookmark]
  · simp only [mkBookmark, generateDescription]
  · cases url with
    | none => simp [truthyS] at hu
    | some u =>
      simp only [truthyS] at hu
      simpa [mkBookmark, coerceS] using hu

mutual

/-- Processing one node preserves, and establishes for new bookmarks, the
per-bookmark facts. -/
theorem traverseNode_bm :
    ∀ (now : Int) (pp : Option String) (st : ParseState) (node : BTNode)
      (st' : ParseState),
      traverseNode now pp st node = .ok st' →
      (∀ bm ∈ st.bookmarks, bmWellFormed bm) →
      ∀ bm ∈ st'.bookmarks, bmWellFormed bm
  | now, pp, st, .mk id title hasC cs url dAdd, st' => by
    intro h hst
    rw [traverseNode] at h
    cases hasC with
    | true =>
      rw [if_pos rfl] at h
      refine traverseList_bm _ _ _ _ _ h ?_
      rw [folderStep_bookmarks]
      exact hst
    | false =>
      rw [if_neg (by simp)] at h
      cases hu : truthyS url with
      | false =>
        rw [if_neg (by simp [hu])] at h
        rw [Except.ok.injEq] at h
        subst h
        exact hst
      | true =>
        rw [if_pos (by simp [hu])] at h
        obtain ⟨t, htit, hbms, _, _⟩ := leafStep_spec _ _ _ _ _ _ _ _ h
        intro bm hbm
        rw [hbms] at hbm
        rcases List.mem_append.mp hbm with hold | hnew
        · exact hst bm hold
        · rw [List.mem_singleton] at hnew
          subst hnew
          exact mkBookmark_wellFormed now pp id title url dAdd t hu

theorem traverseList_bm :
    ∀ (now : Int) (pp : Option String) (st : ParseState) (nodes : List BTNode)
      (st' : ParseState),
      traverseList now pp st nodes = .ok st' →
      (∀ bm ∈ st.bookmarks, bmWellFormed bm) →
      ∀ bm ∈ st'.bookmarks, bmWellFormed bm
  | now, pp, st, [], st' => by
    intro h hst
    rw [traverseList, Except.ok.injEq] at h
    subst h
    exact hst
  | now, pp, st, n :: rest, st' => by
    intro h hst
    rw [traverseList] at h
    cases hn : traverseNode now pp st n with
    | error e => rw [hn] at h; exact absurd h (by simp)
    | ok st1 =>
      rw [hn] at h
      exact traverseList_bm _ _ _ _ _ h (traverseNode_bm _ _ _ _ _ hn hst)

end

/-- Every bookmark produced by `parseBookmarkTree` is well-formed. -/
theorem parseBookmarkTree_bm (now : Int) (nodes : List BTNode) (r : ParseResult)
    (h : parseBookmarkTree now nodes = .ok r) :
    ∀ bm ∈ r.bookmarks, bmWellFormed bm := by
  rw [parseBookmarkTree] at h
  cases ht : traverseList now (some "") ⟨[], [], []⟩ nodes with
  | error e => rw [ht] at h; exact absurd h (by simp)
  | ok st =>
    rw [ht] at h
    rw [Except.ok.injEq] at h
    subst h
    exact traverseList_bm _ _ _ _ _ ht (by simp)

end BookmarkAPI

/-- Input and expected output for the C7 witness: a single GitHub leaf. -/
def c7Nodes : List BookmarkAPI.BTNode :=
  [.mk "1" (some "t") false [] (some "https://github.com/x") none]

def c7Result : BookmarkAPI.ParseResult :=
  ⟨[⟨"1", "t", "https://github.com/x", "根目录", 0,
     "来自 github.com 的书签", ["开发"], "github.com"⟩], []⟩

/-- C7: the tag generator deduplicates its rule output keeping the first
occurrence of each tag in rule-evaluation order (same membership as the raw
rule list, no duplicates, elements ordered by first occurrence), and every
bookmark produced by the native-tree parser — the tree-walking parser shared
by the Chrome path and the native-JSON path, whose leaves all take their
`tags` from `generateTags` — has duplicate-free tags. -/
theorem c7_generateTags_dedup_first_match :
    (∀ (title url : String),
      BookmarkAPI.generateTags (some title) url =
        .ok (Utils.ArrayUtils.unique (BookmarkAPI.rawTags title url)) ∧
      (Utils.ArrayUtils.unique (BookmarkAPI.rawTags title url)).Nodup ∧
      (∀ x, x ∈ Utils.ArrayUtils.unique (BookmarkAPI.rawTags title url) ↔
        x ∈ BookmarkAPI.rawTags title url) ∧
      (Utils.ArrayUtils.unique (BookmarkAPI.rawTags title url)).Pairwise
        (fun a b => (BookmarkAPI.rawTags title url).indexOf a <
          (BookmarkAPI.rawTags title url).indexOf b)) ∧
    (∀ (now : Int) (nodes : List BookmarkAPI.BTNode) (r : BookmarkAPI.ParseResult),
      BookmarkAPI.parseBookmarkTree now nodes = .ok r →
      ∀ bm ∈ r.bookmarks, bm.tags.Nodup) := by
  constructor
  · intro title url
    refine ⟨?_, Utils.ArrayUtils.nodup_unique _, fun x => Utils.ArrayUtils.mem_unique _ x,
      Utils.ArrayUtils.unique_pairwise_indexOf _⟩
    simp only [BookmarkAPI.generateTags]
  · intro now nodes r h bm hbm
    obtain ⟨⟨t, htags⟩, _, _⟩ := BookmarkAPI.parseBookmarkTree_bm now nodes r h bm hbm
    rw [htags]
    exact Utils.ArrayUtils.nodup_unique _

/-- Witness for C7's parser branch: a concrete successful parse whose
bookmark's tags are duplicate-free. -/
theorem c7_generateTags_dedup_first_match_witness :
    BookmarkAPI.parseBookmarkTree 0 c7Nodes = .ok c7Result ∧
    ∀ bm ∈ c7Result.bookmarks, bm.tags.Nodup :=
  ⟨rfl, c7_generateTags_dedup_first_match.2 0 c7Nodes c7Result rfl⟩

namespace BookmarkAPI

open JSString Utils.StringUtils Utils.ArrayUtils

/-- A leaf attach-lookup over an empty folder map finds nothing. -/
theorem findParentIdx_fmap_nil (folders : List Folder) (pp : Option String) :
    findParentIdx folders [] pp = none := by
  cases pp <;> rfl

end BookmarkAPI

set_option maxHeartbeats 400000 in
/-- C10: a container whose title is absent or empty is treated like a
pseudo-root — no Folder record is created for it, yet its children are still
traversed. At the top level its children are recursed with the falsy
folder path `node.title` itself, so a leaf child's bookmark receives the
root sentinel `根目录` as its folder (first conjunct pair) and a child
container starts a fresh path equal to its own title (third conjunct). -/
theorem c10_untitled_container_pseudo_root (now : Int)
    (id cid clt curl T : String) (t0 : Option String) (d : Option Int)
    (ht0 : BookmarkAPI.truthyS t0 = false) (hcurl : curl ≠ "") (hT : T ≠ "")
    (hT1 : T ≠ "书签栏") (hT2 : T ≠ "其他书签") :
    BookmarkAPI.parseBookmarkTree now
        [.mk id t0 true [.mk cid (some clt) false [] (some curl) d] none none] =
      .ok ⟨[BookmarkAPI.mkBookmark now t0 cid (some clt) (some curl) d
              (Utils.ArrayUtils.unique (BookmarkAPI.rawTags clt
                (BookmarkAPI.coerceS (some curl))))], []⟩ ∧
    (BookmarkAPI.mkBookmark now t0 cid (some clt) (some curl) d
        (Utils.ArrayUtils.unique (BookmarkAPI.rawTags clt
          (BookmarkAPI.coerceS (some curl))))).folder = "根目录" ∧
    BookmarkAPI.parseBookmarkTree now
        [.mk id t0 true [.mk cid (some T) true [] none none] none none] =
      .ok ⟨[], [⟨cid, T, T, t0, []⟩]⟩ := by
  open BookmarkAPI Utils.ArrayUtils in
  refine ⟨?_, ?_, ?_⟩
  · have hcu : truthyS (some curl) = true := by simp [truthyS, hcurl]
    have hcp : childPath (some "") t0 = t0 := by simp [childPath, truthyS]
    have hfs : folderStep (some "") ⟨[], [], []⟩ id t0 = ⟨[], [], []⟩ := by
      simp [folderStep, ht0]
    have hleaf : traverseNode now t0 ⟨[], [], []⟩
        (.mk cid (some clt) false [] (some curl) d)
        = leafStep now t0 ⟨[], [], []⟩ cid (some clt) (some curl) d := by
      rw [traverseNode, if_neg (by simp), if_pos (by simp [hcu])]
    have hls : leafStep now t0 ⟨[], [], []⟩ cid (some clt) (some curl) d =
        .ok ⟨[mkBookmark now t0 cid (some clt) (some curl) d
                (unique (rawTags clt (coerceS (some curl))))], [], []⟩ := by
      simp only [leafStep, generateTags]
      rw [findParentIdx_fmap_nil]
      simp
    have h2 : traverseList now t0 ⟨[], [], []⟩
        [.mk cid (some clt) false [] (some curl) d]
        = .ok ⟨[mkBookmark now t0 cid (some clt) (some curl) d
                (unique (rawTags clt (coerceS (some curl))))], [], []⟩ := by
      rw [traverseList, hleaf, hls]
      rfl
    rw [parseBookmarkTree, traverseList, traverseNode, if_pos rfl, hcp, hfs, h2]
    rfl
  · simp [mkBookmark, ht0]
  · have hcp : childPath (some "") t0 = t0 := by simp [childPath, truthyS]
    have hfs : folderStep (some "") ⟨[], [], []⟩ id t0 = ⟨[], [], []⟩ := by
      simp [folderStep, ht0]
    have hTt : truthyS (some T) = true := by simp [truthyS, hT]
    have hcp2 : childPath t0 (some T) = some T := by simp [childPath, ht0]
    have hfs2 : folderStep t0 ⟨[], [], []⟩ cid (some T) =
        ⟨[], [⟨cid, T, T, t0, []⟩], [(cid, 0)]⟩ := by
      simp [folderStep, hTt, hT1, hT2, mapSet, hcp2, coerceS]
    have hchild : traverseNode now t0 ⟨[], [], []⟩ (.mk cid (some T) true [] none none)
        = .ok ⟨[], [⟨cid, T, T, t0, []⟩], [(cid, 0)]⟩ := by
      rw [traverseNode, if_pos rfl, hcp2, hfs2]
      rfl
    have h2 : traverseList now t0 ⟨[], [], []⟩ [.mk cid (some T) true [] none none]
        = .ok ⟨[], [⟨cid, T, T, t0, []⟩], [(cid, 0)]⟩ := by
      rw [traverseList, hchild]
      rfl
    rw [parseBookmarkTree, traverseList, traverseNode, if_pos rfl, hcp, hfs, h2]
    rfl

/-- Witness for C10 at concrete inputs: an absent-titled top-level container
with a leaf child (which lands in `根目录` with no folder record) and with a
container child titled `T` (which starts the fresh path `T`). -/
theorem c10_untitled_container_pseudo_root_witness :
    BookmarkAPI.parseBookmarkTree 7
        [.mk "0" none true [.mk "1" (some "L") false [] (some "https://x.com/") none] none none] =
      .ok ⟨[BookmarkAPI.mkBookmark 7 none "1" (some "L") (some "https://x.com/") none
              (Utils.ArrayUtils.unique (BookmarkAPI.rawTags "L"
                (BookmarkAPI.coerceS (some "https://x.com/"))))], []⟩ ∧
    (BookmarkAPI.mkBookmark 7 none "1" (some "L") (some "https://x.com/") none
        (Utils.ArrayUtils.unique (BookmarkAPI.rawTags "L"
          (BookmarkAPI.coerceS (some "https://x.com/"))))).folder = "根目录" ∧
    BookmarkAPI.parseBookmarkTree 7
        [.mk "0" none true [.mk "1" (some "T") true [] none none] none none] =
      .ok ⟨[], [⟨"1", "T", "T", none, []⟩]⟩ :=
  c10_untitled_container_pseudo_root 7 "0" "1" "L" "https://x.com/" "T" none none
    rfl (by decide) (by decide) (by decide) (by decide)

/-- Counterexample for C3: two sibling folders share the path `A`; the
parser produces one bookmark whose `parentPath` is `A`, and it is attached
to the FIRST-added matching folder (children count 1) while the last-added
matching folder stays empty — refuting last-matching-by-path semantics. -/
theorem c3_last_match_counterexample :
    (BookmarkAPI.parseBookmarkTree 0
        [.mk "1" (some "A") true [] none none,
         .mk "2" (some "A") true
           [.mk "3" (some "b") false [] (some "https://x.com/") none] none none]).map
      (fun r => (r.bookmarks.length, r.folders.map (fun f => (f.path, f.children.length))))
      = .ok (1, [("A", 1), ("A", 0)]) := rfl

set_option maxHeartbeats 1000000 in
/-- C3 amended: when the accumulated folders contain two folders with the
same path (any non-sentinel title `T`, distinct node ids), a bookmark whose
`parentPath` equals that path is attached to the first-added matching
folder — `Array.prototype.find` over the map's insertion order returns the
first match, not the last. -/
theorem c3_first_match_amended (now : Int) (id1 id2 id3 T lt lu : String)
    (d : Option Int) (hT : T ≠ "") (hT1 : T ≠ "书签栏") (hT2 : T ≠ "其他书签")
    (hid : id1 ≠ id2) (hlu : lu ≠ "") :
    BookmarkAPI.parseBookmarkTree now
        [.mk id1 (some T) true [] none none,
         .mk id2 (some T) true [.mk id3 (some lt) false [] (some lu) d] none none] =
      .ok ⟨[BookmarkAPI.mkBookmark now (some T) id3 (some lt) (some lu) d
              (Utils.ArrayUtils.unique (BookmarkAPI.rawTags lt
                (BookmarkAPI.coerceS (some lu))))],
           [⟨id1, T, T, some "", [BookmarkAPI.mkBookmark now (some T) id3 (some lt)
              (some lu) d (Utils.ArrayUtils.unique (BookmarkAPI.rawTags lt
                (BookmarkAPI.coerceS (some lu))))]⟩,
            ⟨id2, T, T, some "", []⟩]⟩ := by
  open BookmarkAPI Utils.ArrayUtils in
  have hTt : truthyS (some T) = true := by simp [truthyS, hT]
  have hlut : truthyS (some lu) = true := by simp [truthyS, hlu]
  have hcp0 : childPath (some "") (some T) = some T := by simp [childPath, truthyS]
  have hfs1 : folderStep (some "") ⟨[], [], []⟩ id1 (some T) =
      ⟨[], [⟨id1, T, T, some "", []⟩], [(id1, 0)]⟩ := by
    simp [folderStep, hTt, hT1, hT2, mapSet, hcp0, coerceS]
  have hn1 : traverseNode now (some "") ⟨[], [], []⟩ (.mk id1 (some T) true [] none none)
      = .ok ⟨[], [⟨id1, T, T, some "", []⟩], [(id1, 0)]⟩ := by
    rw [traverseNode, if_pos rfl, hcp0, hfs1]
    rfl
  have hidb : (id1 == id2) = false := by simp [hid]
  have hfs2 : folderStep (some "") ⟨[], [⟨id1, T, T, some "", []⟩], [(id1, 0)]⟩ id2 (some T) =
      ⟨[], [⟨id1, T, T, some "", []⟩, ⟨id2, T, T, some "", []⟩], [(id1, 0), (id2, 1)]⟩ := by
    simp [folderStep, hTt, hT1, hT2, mapSet, hcp0, coerceS, hidb]
  have hfind : findParentIdx [⟨id1, T, T, some "", []⟩, ⟨id2, T, T, some "", []⟩]
      [(id1, 0), (id2, 1)] (some T) = some 0 := by
    simp [findParentIdx, List.find?]
  have hleaf : traverseNode now (some T)
      ⟨[], [⟨id1, T, T, some "", []⟩, ⟨id2, T, T, some "", []⟩], [(id1, 0), (id2, 1)]⟩
      (.mk id3 (some lt) false [] (some lu) d)
      = .ok ⟨[mkBookmark now (some T) id3 (some lt) (some lu) d
              (unique (rawTags lt (coerceS (some lu))))],
           [⟨id1, T, T, some "", [mkBookmark now (some T) id3 (some lt) (some lu) d
              (unique (rawTags lt (coerceS (some lu))))]⟩,
            ⟨id2, T, T, some "", []⟩], [(id1, 0), (id2, 1)]⟩ := by
    rw [traverseNode, if_neg (by simp), if_pos (by simp [hlut])]
    simp only [leafStep, generateTags]
    rw [hfind]
    simp [attachChild]
  have hn2 : traverseNode now (some "")
      ⟨[], [⟨id1, T, T, some "", []⟩], [(id1, 0)]⟩
      (.mk id2 (some T) true [.mk id3 (some lt) false [] (some lu) d] none none)
      = .ok ⟨[mkBookmark now (some T) id3 (some lt) (some lu) d
              (unique (rawTags lt (coerceS (some lu))))],
           [⟨id1, T, T, some "", [mkBookmark now (some T) id3 (some lt) (some lu) d
              (unique (rawTags lt (coerceS (some lu))))]⟩,
            ⟨id2, T, T, some "", []⟩], [(id1, 0), (id2, 1)]⟩ := by
    rw [traverseNode, if_pos rfl, hcp0, hfs2]
    rw [traverseList, hleaf]
    rfl
  rw [parseBookmarkTree, traverseList, hn1]
  show (match traverseList now (some "") _ _ with
    | Except.error e => Except.error e
    | Except.ok st => Except.ok (⟨st.bookmarks, st.folders⟩ : BookmarkAPI.ParseResult)) = _
  rw [traverseList, hn2]
  rfl

/-- Witness for C3's amended theorem at concrete inputs. -/
theorem c3_first_match_amended_witness :
    BookmarkAPI.parseBookmarkTree 0
        [.mk "1" (some "A") true [] none none,
         .mk "2" (some "A") true
           [.mk "3" (some "b") false [] (some "https://x.com/") none] none none] =
      .ok ⟨[BookmarkAPI.mkBookmark 0 (some "A") "3" (some "b") (some "https://x.com/") none
              (Utils.ArrayUtils.unique (BookmarkAPI.rawTags "b"
                (BookmarkAPI.coerceS (some "https://x.com/"))))],
           [⟨"1", "A", "A", some "", [BookmarkAPI.mkBookmark 0 (some "A") "3" (some "b")
              (some "https://x.com/") none (Utils.ArrayUtils.unique (BookmarkAPI.rawTags "b"
                (BookmarkAPI.coerceS (some "https://x.com/"))))]⟩,
            ⟨"2", "A", "A", some "", []⟩]⟩ :=
  c3_first_match_amended 0 "1" "2" "3" "A" "b" "https://x.com/" none
    (by decide) (by decide) (by decide) (by decide) (by decide)

/-- Counterexample for C2: (1) on a standard pseudo-root input, the bookmark
under the skipped `书签栏` container gets `folder = "书签栏"`, which is
neither any Folder's path (no folder records exist) nor the root sentinel
`根目录`, and its `about:blank` url parses with an empty hostname, so
`domain` is the empty string; (2) the JSON own-format parser path passes
bookmarks through with no normalization at all — duplicated tags survive. -/
theorem c2_normalization_counterexample :
    (BookmarkAPI.parseBookmarkTree 0
        [.mk "1" (some "书签栏") true
          [.mk "2" (some "X") false [] (some "about:blank") none] none none]).map
      (fun r => (r.folders, r.bookmarks.map (fun b => (b.folder, b.domain))))
      = .ok ([], [("书签栏", "")]) ∧
    BookmarkAPI.parseJSONBookmarks 0
        (.ok (.obj [("bookmarks", .arr [.obj [("tags", .arr [.str "a", .str "a"])]])])) =
      .ok ⟨[.obj [("tags", .arr [.str "a", .str "a"])]], .arr []⟩ :=
  ⟨rfl, rfl⟩

namespace BookmarkAPI

mutual

/-- A "good" container node for the amended C2 invariant: every container
in the subtree has a truthy title different from the two pseudo-root
names (leaves are unconstrained). -/
def goodNode : BTNode → Bool
  | .mk _ title hasC cs _ _ =>
    if hasC then
      truthyS title && !(title == some "书签栏") && !(title == some "其他书签") &&
        goodForest cs
    else true

def goodForest : List BTNode → Bool
  | [] => true
  | n :: rest => goodNode n && goodForest rest

end

/-- The folder paths accumulated in a parse state. -/
def pathsOf (st : ParseState) : List String :=
  st.folders.map (fun f => f.path)

end BookmarkAPI

namespace BookmarkAPI

open Utils.StringUtils Utils.ArrayUtils

/-- `folderStep` only ever appends folder paths. -/
theorem folderStep_paths (pp : Option String) (st : ParseState) (id : String)
    (title : Option String) :
    ∀ p ∈ pathsOf st, p ∈ pathsOf (folderStep pp st id title) := by
  unfold folderStep
  split
  · intro p hp
    simp only [pathsOf, List.map_append]
    exact List.mem_append_left _ hp
  · intro p hp
    exact hp

/-- When the creation guard holds, the computed child path becomes a real
folder path. -/
theorem folderStep_new_path (pp : Option String) (st : ParseState) (id : String)
    (title : Option String)
    (hguard : (truthyS title && !(title == some "书签栏") &&
      !(title == some "其他书签")) = true) :
    coerceS (childPath pp title) ∈ pathsOf (folderStep pp st id title) := by
  unfold folderStep
  rw [if_pos hguard]
  simp [pathsOf]

mutual

/-- Folder-path invariant of the traversal: assuming every container in the
node is good (truthy, non-pseudo-root title), the folder paths only grow,
and every bookmark's `folder` is the root sentinel or a real folder path. -/
theorem traverseNode_folders :
    ∀ (now : Int) (pp : Option String) (st : ParseState) (node : BTNode)
      (st' : ParseState),
      traverseNode now pp st node = .ok st' →
      goodNode node = true →
      (truthyS pp = true → coerceS pp ∈ pathsOf st) →
      (∀ bm ∈ st.bookmarks, bm.folder = "根目录" ∨ bm.folder ∈ pathsOf st) →
      (∀ p ∈ pathsOf st, p ∈ pathsOf st') ∧
      (∀ bm ∈ st'.bookmarks, bm.folder = "根目录" ∨ bm.folder ∈ pathsOf st')
  | now, pp, st, .mk id title hasC cs url dAdd, st' => by
    intro h hgood hpp hbms
    rw [traverseNode] at h
    cases hasC with
    | true =>
      rw [if_pos rfl] at h
      rw [goodNode, if_pos rfl] at hgood
      simp only [Bool.and_eq_true] at hgood
      have hguard : (truthyS title && !(title == some "书签栏") &&
          !(title == some "其他书签")) = true := by
        simp only [Bool.and_eq_true]
        exact hgood.1
      have hcs : goodForest cs = true := hgood.2
      have hrec := traverseList_folders now (childPath pp title)
        (folderStep pp st id title) cs st' h hcs
        (fun _ => folderStep_new_path pp st id title hguard)
        (by
          rw [folderStep_bookmarks]
          intro bm hbm
          rcases hbms bm hbm with hroot | hpath
          · exact Or.inl hroot
          · exact Or.inr (folderStep_paths pp st id title _ hpath))
      exact ⟨fun p hp => hrec.1 p (folderStep_paths pp st id title p hp), hrec.2⟩
    | false =>
      rw [if_neg (by simp)] at h
      cases hu : truthyS url with
      | false =>
        rw [if_neg (by simp [hu])] at h
        rw [Except.ok.injEq] at h
        subst h
        exact ⟨fun p hp => hp, hbms⟩
      | true =>
        rw [if_pos (by simp [hu])] at h
        obtain ⟨t, htit, hbmseq, hpaths, _⟩ := leafStep_spec _ _ _ _ _ _ _ _ h
        have hpaths' : pathsOf st' = pathsOf st := hpaths
        refine ⟨fun p hp => by rw [hpaths']; exact hp, ?_⟩
        intro bm hbm
        rw [hbmseq] at hbm
        rcases List.mem_append.mp hbm with hold | hnew
        · rcases hbms bm hold with hroot | hpath
          · exact Or.inl hroot
          · exact Or.inr (by rw [hpaths']; exact hpath)
        · rw [List.mem_singleton] at hnew
          subst hnew
          simp only [mkBookmark]
          cases hppt : truthyS pp with
          | false => exact Or.inl rfl
          | true =>
            rw [if_pos rfl]
            exact Or.inr (by rw [hpaths']; exact hpp hppt)

theorem traverseList_folders :
    ∀ (now : Int) (pp : Option String) (st : ParseState) (nodes : List BTNode)
      (st' : ParseState),
      traverseList now pp st nodes = .ok st' →
      goodForest nodes = true →
      (truthyS pp = true → coerceS pp ∈ pathsOf st) →
      (∀ bm ∈ st.bookmarks, bm.folder = "根目录" ∨ bm.folder ∈ pathsOf st) →
      (∀ p ∈ pathsOf st, p ∈ pathsOf st') ∧
      (∀ bm ∈ st'.bookmarks, bm.folder = "根目录" ∨ bm.folder ∈ pathsOf st')
  | now, pp, st, [], st' => by
    intro h _ _ hbms
    rw [traverseList, Except.ok.injEq] at h
    subst h
    exact ⟨fun p hp => hp, hbms⟩
  | now, pp, st, n :: rest, st' => by
    intro h hgood hpp hbms
    rw [goodForest, Bool.and_eq_true] at hgood
    rw [traverseList] at h
    cases hn : traverseNode now pp st n with
    | error e => rw [hn] at h; exact absurd h (by simp)
    | ok st1 =>
      rw [hn] at h
      have h1 := traverseNode_folders now pp st n st1 hn hgood.1 hpp hbms
      have h2 := traverseList_folders now pp st1 rest st' h hgood.2
        (fun ht => h1.1 _ (hpp ht)) h1.2
      exact ⟨fun p hp => h2.1 p (h1.1 p hp), h2.2⟩

end

end BookmarkAPI

/-- C2 amended: for the native-tree parser (the JSON own-format path passes
bookmarks through with no normalization), every produced bookmark has
deduplicated tags, `domain` equal to the safe-extracted domain of its
non-empty `url` (hence non-empty whenever URL parsing fails, though possibly
empty for authority-less URLs such as `about:blank`), and — provided every
container node in the input has a non-empty title different from the two
pseudo-root names — a `folder` equal to a real Folder's `path` or the root
sentinel `根目录`. -/
theorem c2_normalization_amended :
    ∀ (now : Int) (nodes : List BookmarkAPI.BTNode) (r : BookmarkAPI.ParseResult),
      BookmarkAPI.goodForest nodes = true →
      BookmarkAPI.parseBookmarkTree now nodes = .ok r →
      ∀ bm ∈ r.bookmarks,
        bm.tags.Nodup ∧
        bm.domain = Utils.StringUtils.extractDomain bm.url ∧
        bm.url ≠ "" ∧
        (bm.folder = "根目录" ∨ bm.folder ∈ r.folders.map (fun f => f.path)) := by
  intro now nodes r hgood h bm hbm
  obtain ⟨⟨t, htags⟩, hdom, hurl⟩ := BookmarkAPI.parseBookmarkTree_bm now nodes r h bm hbm
  refine ⟨by rw [htags]; exact Utils.ArrayUtils.nodup_unique _, hdom, hurl, ?_⟩
  rw [BookmarkAPI.parseBookmarkTree] at h
  cases ht : BookmarkAPI.traverseList now (some "") ⟨[], [], []⟩ nodes with
  | error e => rw [ht] at h; exact absurd h (by simp)
  | ok st =>
    rw [ht, Except.ok.injEq] at h
    subst h
    have hinv := BookmarkAPI.traverseList_folders now (some "") ⟨[], [], []⟩ nodes st
      ht hgood (fun hcon => by simp [BookmarkAPI.truthyS] at hcon) (by simp)
    exact hinv.2 bm hbm

/-- Witness for C2's amended theorem: a good single-folder tree whose
bookmark satisfies all the amended guarantees. -/
theorem c2_normalization_amended_witness :
    BookmarkAPI.goodForest
      [.mk "f1" (some "Dev") true
        [.mk "b1" (some "GH") false [] (some "https://github.com/") none] none none] = true ∧
    BookmarkAPI.parseBookmarkTree 0
      [.mk "f1" (some "Dev") true
        [.mk "b1" (some "GH") false [] (some "https://github.com/") none] none none] =
      .ok ⟨[⟨"b1", "GH", "https://github.com/", "Dev", 0,
             "来自 github.com 的书签", ["开发"], "github.com"⟩],
           [⟨"f1", "Dev", "Dev", some "",
             [⟨"b1", "GH", "https://github.com/", "Dev", 0,
               "来自 github.com 的书签", ["开发"], "github.com"⟩]⟩]⟩ ∧
    ∀ bm ∈ (⟨[⟨"b1", "GH", "https://github.com/", "Dev", 0,
             "来自 github.com 的书签", ["开发"], "github.com"⟩],
           [⟨"f1", "Dev", "Dev", some "",
             [⟨"b1", "GH", "https://github.com/", "Dev", 0,
               "来自 github.com 的书签", ["开发"], "github.com"⟩]⟩]⟩ :
          BookmarkAPI.ParseResult).bookmarks,
      bm.tags.Nodup ∧
      bm.domain = Utils.StringUtils.extractDomain bm.url ∧
      bm.url ≠ "" ∧
      (bm.folder = "根目录" ∨ bm.folder ∈ (⟨[⟨"b1", "GH", "https://github.com/", "Dev", 0,
             "来自 github.com 的书签", ["开发"], "github.com"⟩],
           [⟨"f1", "Dev", "Dev", some "",
             [⟨"b1", "GH", "https://github.com/", "Dev", 0,
               "来自 github.com 的书签", ["开发"], "github.com"⟩]⟩]⟩ :
          BookmarkAPI.ParseResult).folders.map (fun f => f.path)) :=
  ⟨rfl, rfl,
    c2_normalization_amended 0
      [.mk "f1" (some "Dev") true
        [.mk "b1" (some "GH") false [] (some "https://github.com/") none] none none]
      ⟨[⟨"b1", "GH", "https://github.com/", "Dev", 0,
         "来自 github.com 的书签", ["开发"], "github.com"⟩],
       [⟨"f1", "Dev", "Dev", some "",
         [⟨"b1", "GH", "https://github.com/", "Dev", 0,
           "来自 github.com 的书签", ["开发"], "github.com"⟩]⟩]⟩
      rfl rfl⟩

/-- Unfolding step for `stringifyParseFields` on a field whose value is not
`undefined` (so the field is kept). -/
theorem stringifyParseFields_cons_ne (k : String) (v : JSVal)
    (fs : List (String × JSVal)) (h : v ≠ .undefined) :
    stringifyParseFields ((k, v) :: fs) =
      (k, stringifyParse v) :: stringifyParseFields fs := by
  cases v
  case undefined => exact absurd rfl h
  all_goals rfl

/-- A model (API state) all of whose values are JSON-pure. -/
def pureState (st : BookmarkAPI.APIState) : Bool :=
  jsonPureList st.bookmarks && jsonPure st.folders

/-- C1 amended: for every model whose bookmarks and folders hold only
JSON-representable values (no `Date` objects, no `undefined`) and whose
folders value is truthy (true of every state the code ever assigns, since
imports store a truthy value or `[]`), importing the export succeeds and
returns the model unchanged: bookmarks and folders are identical, order and
field values preserved. -/
theorem c1_roundtrip_amended :
    ∀ (now : Int) (st : BookmarkAPI.APIState),
      pureState st = true →
      st.folders.truthy = true →
      BookmarkAPI.importBookmarks
          (.ok (stringifyParse (BookmarkAPI.exportBookmarks now st))) st =
        (⟨true, none⟩, st) := by
  intro now st hpure hf
  obtain ⟨hb, hfp⟩ : jsonPureList st.bookmarks = true ∧ jsonPure st.folders = true := by
    simpa [pureState, Bool.and_eq_true] using hpure
  have hne : st.folders ≠ .undefined := fun h => by
    rw [h] at hf
    simp [JSVal.truthy] at hf
  rw [BookmarkAPI.exportBookmarks, stringifyParse,
    stringifyParseFields_cons_ne _ _ _ (by simp),
    stringifyParseFields_cons_ne _ _ _ (by simp),
    stringifyParseFields_cons_ne _ _ _ (by simp),
    stringifyParseFields_cons_ne _ _ _ hne,
    stringifyParseFields_cons_ne _ _ _ (by simp)]
  simp only [stringifyParse, stringifyParseFields]
  rw [stringifyParseList_pure _ hb, stringifyParse_pure _ hfp]
  simp only [BookmarkAPI.importBookmarks, JSVal.jsGet, JSVal.jsGetD, JSVal.lookupField]
  simp [hf]

/-- A model held by the API instance after a native-tree ingestion: the
parsed bookmark carries a `Date` object in `dateAdded` (epoch 1000 ms). -/
def c1HeldState : BookmarkAPI.APIState :=
  ⟨(BookmarkAPI.parseBookmarkTree 5
      [.mk "1" (some "t") false [] (some "https://example.com/") (some 1000)]).toOption.elim
      [] (fun r => r.bookmarks.map BookmarkAPI.Bookmark.toJS),
   .arr []⟩

/-- Counterexample for C1: on a model produced by ingestion (whose
`dateAdded` is a `Date` object), the import of the export succeeds but the
resulting bookmarks array is NOT identical to the original: the `dateAdded`
field value changed from the `Date` for epoch 1000 to its ISO-8601 string
serialization. -/
theorem c1_roundtrip_counterexample :
    (BookmarkAPI.importBookmarks
        (.ok (stringifyParse (BookmarkAPI.exportBookmarks 0 c1HeldState)))
        c1HeldState).1.success = true ∧
    c1HeldState.bookmarks.map (fun b => JSVal.jsGetD b "dateAdded") =
      [JSVal.date 1000] ∧
    (BookmarkAPI.importBookmarks
        (.ok (stringifyParse (BookmarkAPI.exportBookmarks 0 c1HeldState)))
        c1HeldState).2.bookmarks.map (fun b => JSVal.jsGetD b "dateAdded") =
      [JSVal.str "1970-01-01T00:00:01.000Z"] :=
  ⟨rfl, rfl, rfl⟩

/-- Witness for C1's amended theorem: a JSON-pure model (string-valued
`dateAdded`) round-trips to itself. -/
theorem c1_roundtrip_amended_witness :
    pureState ⟨[.obj [("id", .str "1"), ("dateAdded", .str "2024-01-01")]],
      .arr [.obj [("path", .str "P")]]⟩ = true ∧
    (JSVal.arr [.obj [("path", .str "P")]]).truthy = true ∧
    BookmarkAPI.importBookmarks
        (.ok (stringifyParse (BookmarkAPI.exportBookmarks 42
          ⟨[.obj [("id", .str "1"), ("dateAdded", .str "2024-01-01")]],
           .arr [.obj [("path", .str "P")]]⟩)))
        ⟨[.obj [("id", .str "1"), ("dateAdded", .str "2024-01-01")]],
         .arr [.obj [("path", .str "P")]]⟩ =
      (⟨true, none⟩,
       ⟨[.obj [("id", .str "1"), ("dateAdded", .str "2024-01-01")]],
        .arr [.obj [("path", .str "P")]]⟩) :=
  ⟨rfl, rfl,
    c1_roundtrip_amended 42
      ⟨[.obj [("id", .str "1"), ("dateAdded", .str "2024-01-01")]],
       .arr [.obj [("path", .str "P")]]⟩ rfl rfl⟩

namespace JSString

/-- A string of `n` repetitions of `a` (used to build a keyword longer than
every field of a malformed bookmark collection). -/
def aRep (n : Nat) : String :=
  ⟨List.replicate n 'a'⟩

theorem dropWhile_replicate {α : Type} (p : α → Bool) (n : Nat) (a : α) :
    List.dropWhile p (List.replicate n a) =
      if p a then [] else List.replicate n a := by
  induction n with
  | zero => cases hpa : p a <;> simp
  | succ n ih =>
    cases hpa : p a <;>
      simp [List.replicate_succ, List.dropWhile_cons, hpa, ih]

theorem jsToLower_aRep (n : Nat) : jsToLower (aRep n) = aRep n := by
  simp [jsToLower, aRep, List.map_replicate,
    show lowerChar 'a' = 'a' from rfl]

theorem jsTrim_aRep (n : Nat) : jsTrim (aRep n) = aRep n := by
  simp [jsTrim, aRep, dropWhile_replicate, show isWs 'a' = false from rfl,
    List.reverse_replicate]

theorem aRep_ne_empty (n : Nat) : aRep (n + 1) ≠ "" := by
  intro h
  have := congrArg String.data h
  simp [aRep, List.replicate_succ] at this

theorem aRep_length (n : Nat) : (aRep n).data.length = n := by
  simp [aRep]

theorem jsToLower_length (s : String) : (jsToLower s).data.length = s.data.length := by
  simp [jsToLower]

theorem jsIncludes_false_of_longer (s term : String)
    (h : s.data.length < term.data.length) : jsIncludes s term = false := by
  simp only [jsIncludes, decide_eq_false_iff_not]
  intro hinf
  have := hinf.length_le
  omega

end JSString

namespace BookmarkAPI

open JSString

/-- The given field of the untyped bookmark reads as a string. -/
def isStrField (b : JSVal) (k : String) : Bool :=
  match JSVal.jsGet b k with
  | .ok (.str _) => true
  | _ => false

/-- The given field of the untyped bookmark reads as an array. -/
def isArrField (b : JSVal) (k : String) : Bool :=
  match JSVal.jsGet b k with
  | .ok (.arr _) => true
  | _ => false

/-- The shape `searchBookmarks`' predicate needs to run without throwing on
keywords matching nothing: string-valued `title`, `url`, `description` and
`folder`, and an array-valued `tags`. -/
def shallowWF (b : JSVal) : Bool :=
  isStrField b "title" && isStrField b "url" && isStrField b "description" &&
    isStrField b "folder" && isArrField b "tags"

/-- The string view of a field value. -/
def strsOfVal : JSVal → List String
  | .str s => [s]
  | _ => []

/-- The string elements of a `tags` value. -/
def tagStrs : JSVal → List String
  | .arr ts => ts.foldr (fun v acc => strsOfVal v ++ acc) []
  | _ => []

/-- Every string the search predicate could test against, for one bookmark. -/
def fieldStrs (b : JSVal) : List String :=
  strsOfVal (JSVal.jsGetD b "title") ++ strsOfVal (JSVal.jsGetD b "url") ++
  strsOfVal (JSVal.jsGetD b "description") ++ strsOfVal (JSVal.jsGetD b "folder") ++
  tagStrs (JSVal.jsGetD b "tags")

/-- Every string the search predicate could test against, over a collection. -/
def allStrs (bs : List JSVal) : List String :=
  bs.foldr (fun b acc => fieldStrs b ++ acc) []

/-- The longest length among a list of strings. -/
def maxLen (l : List String) : Nat :=
  l.foldr (fun s m => max s.data.length m) 0

theorem maxLen_bound : ∀ (l : List String) (s : String), s ∈ l →
    s.data.length ≤ maxLen l := by
  intro l
  induction l with
  | nil => intro s hs; simp at hs
  | cons x xs ih =>
    intro s hs
    rcases List.mem_cons.mp hs with rfl | hmem
    · exact le_max_left _ _
    · exact le_trans (ih s hmem) (le_max_right _ _)

theorem mem_allStrs : ∀ (bs : List JSVal) (b : JSVal) (s : String),
    b ∈ bs → s ∈ fieldStrs b → s ∈ allStrs bs := by
  intro bs
  induction bs with
  | nil => intro b s hb; simp at hb
  | cons x xs ih =>
    intro b s hb hs
    rcases List.mem_cons.mp hb with rfl | hmem
    · exact List.mem_append_left _ hs
    · exact List.mem_append_right _ (ih b s hmem hs)

end BookmarkAPI

namespace BookmarkAPI

open JSString

theorem isStrField_some (b : JSVal) (k : String) (h : isStrField b k = true) :
    ∃ s, JSVal.jsGet b k = .ok (.str s) := by
  unfold isStrField at h
  cases hg : JSVal.jsGet b k with
  | error e => rw [hg] at h; simp at h
  | ok v =>
    rw [hg] at h
    cases v
    case str s => exact ⟨s, rfl⟩
    all_goals simp at h

theorem fieldIncludes_err (b : JSVal) (k term : String)
    (hk : isStrField b k = false) :
    fieldIncludes b k term = .error .typeError := by
  unfold fieldIncludes isStrField at *
  cases hg : JSVal.jsGet b k with
  | error e => cases e; rfl
  | ok v =>
    cases v
    case str s => rw [hg] at hk; simp at hk
    all_goals rfl

theorem fieldIncludes_short (b : JSVal) (k term s : String)
    (hg : JSVal.jsGet b k = .ok (.str s))
    (hlen : s.data.length < term.data.length) :
    fieldIncludes b k term = .ok false := by
  simp only [fieldIncludes, hg]
  rw [jsIncludes_false_of_longer _ _ (by rw [jsToLower_length]; exact hlen)]

theorem matchesBookmarkJS_err (term : String) (b : JSVal)
    (hwf : shallowWF b = false)
    (hlen : ∀ s ∈ fieldStrs b, s.data.length < term.data.length) :
    matchesBookmarkJS term b = .error .typeError := by
  unfold matchesBookmarkJS
  cases h1 : isStrField b "title" with
  | false => rw [fieldIncludes_err _ _ _ h1]
  | true =>
  obtain ⟨s1, hg1⟩ := isStrField_some _ _ h1
  rw [fieldIncludes_short _ _ _ _ hg1
    (hlen _ (by simp [fieldStrs, JSVal.jsGetD, hg1, strsOfVal]))]
  cases h2 : isStrField b "url" with
  | false => rw [fieldIncludes_err _ _ _ h2]
  | true =>
  obtain ⟨s2, hg2⟩ := isStrField_some _ _ h2
  rw [fieldIncludes_short _ _ _ _ hg2
    (hlen _ (by simp [fieldStrs, JSVal.jsGetD, hg2, strsOfVal]))]
  cases h3 : isStrField b "description" with
  | false => rw [fieldIncludes_err _ _ _ h3]
  | true =>
  obtain ⟨s3, hg3⟩ := isStrField_some _ _ h3
  rw [fieldIncludes_short _ _ _ _ hg3
    (hlen _ (by simp [fieldStrs, JSVal.jsGetD, hg3, strsOfVal]))]
  cases h4 : isStrField b "folder" with
  | false => rw [fieldIncludes_err _ _ _ h4]
  | true =>
  obtain ⟨s4, hg4⟩ := isStrField_some _ _ h4
  rw [fieldIncludes_short _ _ _ _ hg4
    (hlen _ (by simp [fieldStrs, JSVal.jsGetD, hg4, strsOfVal]))]
  have h5 : isArrField b "tags" = false := by
    unfold shallowWF at hwf
    simp [h1, h2, h3, h4] at hwf
    exact hwf
  unfold isArrField at h5
  cases hg5 : JSVal.jsGet b "tags" with
  | error e => cases e; rfl
  | ok v =>
    cases v
    case arr ts => rw [hg5] at h5; simp at h5
    all_goals rfl

theorem filterJS_err (term : String) : ∀ (bs : List JSVal),
    (∃ b ∈ bs, shallowWF b = false) →
    (∀ b ∈ bs, ∀ s ∈ fieldStrs b, s.data.length < term.data.length) →
    filterJS term bs = .error .typeError := by
  intro bs
  induction bs with
  | nil => rintro ⟨b, hb, _⟩ _; simp at hb
  | cons b rest ih =>
    rintro ⟨bb, hbb, hbad⟩ hlen
    rw [filterJS]
    cases hm : matchesBookmarkJS term b with
    | error e => cases e; rfl
    | ok keep =>
      have hbW : shallowWF b = true := by
        cases hW : shallowWF b with
        | true => rfl
        | false =>
          rw [matchesBookmarkJS_err term b hW (hlen b (List.mem_cons_self b rest))] at hm
          exact absurd hm (by simp)
      have hbadrest : ∃ b' ∈ rest, shallowWF b' = false := by
        rcases List.mem_cons.mp hbb with rfl | hmem
        · rw [hbW] at hbad; exact absurd hbad (by simp)
        · exact ⟨bb, hmem, hbad⟩
      have hrest := ih hbadrest (fun b' hb' => hlen b' (List.mem_cons_of_mem _ hb'))
      rw [hrest]

end BookmarkAPI

/-- C9: `importBookmarks` accepts any bookmarks array without normalizing
its elements, so ill-shaped bookmarks reach `searchBookmarks`. First part:
a concrete import of a bookmark lacking `description`/`tags` succeeds, and
the subsequent search with the non-empty keyword `"g"` throws a `TypeError`
instead of returning a result. Second part: over any collection containing
a bookmark without string-valued `title`/`url`/`description`/`folder` and
array-valued `tags`, there exists a non-empty, non-whitespace keyword on
which search fails — so search is total only under that precondition. -/
theorem c9_import_unnormalized_search_partial :
    (BookmarkAPI.importBookmarks
        (.ok (.obj [("bookmarks",
          .arr [.obj [("title", .str "a"), ("url", .str "https://x.com/")]])]))
        ⟨[], .arr []⟩ =
      (⟨true, none⟩,
       ⟨[.obj [("title", .str "a"), ("url", .str "https://x.com/")]], .arr []⟩) ∧
     BookmarkAPI.searchBookmarksJS "g"
        [.obj [("title", .str "a"), ("url", .str "https://x.com/")]] =
       .error .typeError) ∧
    (∀ bs : List JSVal,
      (∃ b ∈ bs, BookmarkAPI.shallowWF b = false) →
      ∃ kw : String, kw ≠ "" ∧ JSString.jsTrim kw ≠ "" ∧
        BookmarkAPI.searchBookmarksJS kw bs = .error .typeError) := by
  constructor
  · exact ⟨rfl, rfl⟩
  · intro bs hbad
    open JSString BookmarkAPI in
    refine ⟨aRep (maxLen (allStrs bs) + 1), aRep_ne_empty _, ?_, ?_⟩
    · rw [jsTrim_aRep]
      exact aRep_ne_empty _
    · have h1 : (aRep (maxLen (allStrs bs) + 1) == "") = false := by
        simpa using aRep_ne_empty (maxLen (allStrs bs))
      have h2 : (jsTrim (aRep (maxLen (allStrs bs) + 1)) == "") = false := by
        rw [jsTrim_aRep]
        exact h1
      simp only [searchBookmarksJS, h1, h2, Bool.or_self, Bool.false_eq_true, if_false]
      rw [jsToLower_aRep, jsTrim_aRep]
      apply filterJS_err _ _ hbad
      intro b hb s hs
      have h3 := maxLen_bound (allStrs bs) s (mem_allStrs bs b s hb hs)
      rw [aRep_length]
      omega

/-- Witness for C9's universal part: a bookmark with only a string title is
not search-shape well-formed, and some keyword makes search throw on it. -/
theorem c9_import_unnormalized_search_partial_witness :
    (∃ b ∈ [JSVal.obj [("title", .str "t")]], BookmarkAPI.shallowWF b = false) ∧
    (∃ kw : String, kw ≠ "" ∧ JSString.jsTrim kw ≠ "" ∧
      BookmarkAPI.searchBookmarksJS kw [JSVal.obj [("title", .str "t")]] =
        .error .typeError) :=
  ⟨⟨_, List.mem_singleton_self _, rfl⟩,
   c9_import_unnormalized_search_partial.2 [JSVal.obj [("title", .str "t")]]
     ⟨_, List.mem_singleton_self _, rfl⟩⟩
